import Mathlib

/-!
Verification of the LTLF file merger (merge_ltlf.py).

This file gives a shallow embedding of the pure computational content of
the repository source in Lean 4 and proves, or refutes, the claims made by
the specification about it.  File system side effects (reading and writing
the .ltlf and .part artifacts, directory creation, debug printing) are
abstracted away: file contents are passed as explicit values, and the
functions below compute exactly the values the Python code computes from
them.  Python exceptions that the modelled code can raise on the modelled
paths (IndexError from pairs[1] when fewer than two pairs are given,
ValueError from int() on a malformed variable suffix) are modelled with
an Except monad.

All definitions are structurally recursive so that they evaluate inside
the kernel on concrete inputs.
-/

namespace MergeLtlf

/-! ## Characters and low level string utilities -/

/-- Word characters in the sense of the regex word boundary used by
re.sub in relabeling: ASCII alphanumeric characters and the underscore. -/
def isWordChar (c : Char) : Bool := c.isAlphanum || c == '_'

/-- Whitespace in the sense of str.strip and str.split with no
arguments. -/
def isWs (c : Char) : Bool :=
  c == ' ' || c == '\t' || c == '\n' || c == '\r' || c == '\x0b' || c == '\x0c'

/-- Model of str.strip on a character list: drop whitespace from both
ends. -/
def stripChars (cs : List Char) : List Char :=
  ((cs.dropWhile isWs).reverse.dropWhile isWs).reverse

/-- Model of str.strip on a string. -/
def pyStrip (s : String) : String := ⟨stripChars s.data⟩

/-- Does the first list start with the second? -/
def startsWithL : List Char → List Char → Bool
  | _, [] => true
  | [], _ :: _ => false
  | c :: cs, d :: ds => c == d && startsWithL cs ds

/-- Model of the Python substring test (the "in" operator on strings):
some suffix of s begins with pat. -/
def containsSub (s pat : String) : Bool :=
  s.data.tails.any (fun t => startsWithL t pat.data)

/-- One step list of the occurrence remover: with the given fuel, delete
every non overlapping occurrence of pat (assumed nonempty), scanning left
to right.  Models str.replace(pat, ""). -/
def stripOccAux (pat : List Char) : Nat → List Char → List Char
  | 0, cs => cs
  | _ + 1, [] => []
  | fuel + 1, c :: cs =>
    if startsWithL (c :: cs) pat then
      stripOccAux pat fuel (List.drop pat.length (c :: cs))
    else
      c :: stripOccAux pat fuel cs

/-- Model of str.replace(pat, "") for a nonempty pattern. -/
def stripOcc (pat : String) (s : String) : String :=
  ⟨stripOccAux pat.data s.data.length s.data⟩

/-- Split a character list at newline characters, keeping empty pieces,
as str.split with an explicit separator does. -/
def splitNlAux : List Char → List Char → List (List Char)
  | acc, [] => [acc.reverse]
  | acc, c :: cs =>
    if c == '\n' then acc.reverse :: splitNlAux [] cs
    else splitNlAux (c :: acc) cs

/-- Model of str.split on the newline character. -/
def splitNl (s : String) : List String :=
  (splitNlAux [] s.data).map (fun cs => ⟨cs⟩)

/-- Split a character list into maximal whitespace separated words, as
str.split with no argument does (empty pieces are never produced). -/
def wordsAux : List Char → List Char → List String
  | acc, [] => if acc.isEmpty then [] else [⟨acc.reverse⟩]
  | acc, c :: cs =>
    if isWs c then
      if acc.isEmpty then wordsAux [] cs
      else (⟨acc.reverse⟩ : String) :: wordsAux [] cs
    else wordsAux (c :: acc) cs

/-- Model of str.split with no argument. -/
def pyWords (s : String) : List String := wordsAux [] s.data

/-- Space joined rendering, as the str.join of a list of symbols. -/
def joinSp : List String → String
  | [] => ""
  | [x] => x
  | x :: xs => x ++ " " ++ joinSp xs

/-! ## Lexicographic string order

Python compares strings lexicographically by code point.  The built in
order on String in Lean does not reduce inside the kernel, so the order
is defined here directly on the underlying character lists. -/

/-- Lexicographic comparison of character lists by code point, the order
Python uses to compare strings. -/
def listLe : List Char → List Char → Bool
  | [], _ => true
  | _ :: _, [] => false
  | c :: cs, d :: ds =>
    if c.toNat < d.toNat then true
    else if d.toNat < c.toNat then false
    else listLe cs ds

/-- Lexicographic string comparison, as Python sorted() uses on strings. -/
def strLe (a b : String) : Bool := listLe a.data b.data

/-! ## Decimal rendering of naturals

Models the f-string rendering of the counter value in generated variable
names.  Defined with explicit fuel so that it reduces in the kernel. -/

/-- A decimal digit character. -/
def digitChar (d : Nat) : Char :=
  match d with
  | 0 => '0' | 1 => '1' | 2 => '2' | 3 => '3' | 4 => '4'
  | 5 => '5' | 6 => '6' | 7 => '7' | 8 => '8' | _ => '9'

/-- The value of a decimal digit character; 10 on anything else. -/
def digitVal (c : Char) : Nat :=
  match c with
  | '0' => 0 | '1' => 1 | '2' => 2 | '3' => 3 | '4' => 4
  | '5' => 5 | '6' => 6 | '7' => 7 | '8' => 8 | '9' => 9
  | _ => 10

/-- Decimal digits of n, most significant first, with fuel. -/
def natDigsF : Nat → Nat → List Char
  | 0, n => [digitChar n]
  | fuel + 1, n =>
    if n < 10 then [digitChar n]
    else natDigsF fuel (n / 10) ++ [digitChar (n % 10)]

/-- Decimal digits of n, most significant first. -/
def natDigs (n : Nat) : List Char := natDigsF n n

/-- Decimal string of a natural number, as Python str() renders it. -/
def natStr (n : Nat) : String := ⟨natDigs n⟩

/-- The generated variable name for counter value i: models the literal
formatting p followed by the decimal counter. -/
def pName (i : Nat) : String := ⟨'p' :: natDigs i⟩

/-- Value of a most significant first digit list. -/
def digsVal (cs : List Char) : Nat :=
  cs.foldl (fun a c => a * 10 + digitVal c) 0

/-! ## Model of the int() conversion used for sort keys

int(var[1:]) in the source parses the decimal suffix of a variable name
and raises ValueError when it is malformed; this is modelled with Option. -/

/-- All characters are decimal digits and there is at least one. -/
def allDigits : List Char → Bool
  | [] => false
  | [c] => c.isDigit
  | c :: cs => c.isDigit && allDigits cs

/-- Value of a digit list as a natural number. -/
def digitsNat (cs : List Char) : Nat := cs.foldl (fun a c => a * 10 + digitVal c) 0

/-- Model of Python int() applied to a string: optional surrounding
whitespace, optional sign, then a nonempty digit run. -/
def pyInt (s : String) : Option Int :=
  match stripChars s.data with
  | '-' :: ds => if allDigits ds then some (-(digitsNat ds : Int)) else none
  | '+' :: ds => if allDigits ds then some (digitsNat ds : Int) else none
  | ds => if allDigits ds then some (digitsNat ds : Int) else none

/-- The numeric sort key int(var[1:]) used throughout the merger. -/
def varKey (v : String) : Option Int := pyInt (v.drop 1)

/-- Boolean comparison by numeric suffix, used to model sorting with the
key int(var[1:]).  Callers guard that both keys parse. -/
def keyLe (a b : String) : Bool := ((varKey a).getD 0) ≤ ((varKey b).getD 0)

/-! ## Stable insertion sort

Python sorted() is stable; inserting each element after the existing
elements it compares equal to reproduces that behavior. -/

/-- Insert x after every element y with le y x. -/
def insertSorted (le : α → α → Bool) (x : α) : List α → List α
  | [] => [x]
  | y :: ys => if le y x then y :: insertSorted le x ys else x :: y :: ys

/-- Stable sort by repeated insertion, processing elements left to
right; models Python sorted(). -/
def pySorted (le : α → α → Bool) (l : List α) : List α :=
  l.foldl (fun acc x => insertSorted le x acc) []

/-! ## First seen deduplication

Python set() collapses duplicates; where the source sorts a set with a
total key afterwards the iteration order of the set is irrelevant, and
where it does not, first insertion order is the determinization used. -/

/-- Keep the first occurrence of every element. -/
def distinctAux : List String → List String → List String
  | [], _ => []
  | x :: xs, seen =>
    if seen.contains x then distinctAux xs seen
    else x :: distinctAux xs (x :: seen)

/-- The distinct elements of a list in first seen order. -/
def distinct (l : List String) : List String := distinctAux l []

/-! ## The Specification Record data model

LTLFPair in the source carries the two artifact paths, the formula text
and the declared input and output symbol lists. -/

/-- A pair of .ltlf and .part artifacts, as loaded in memory. -/
structure LTLFPair where
  ltlf_path : String
  part_path : String
  inputs : List String
  outputs : List String
  ltlf_formula : String
deriving DecidableEq, Repr

/-! ## Loading (LTLFPair.load_files)

The parsing of the .part content: each stripped line starting with
.inputs (resp. .outputs) replaces the current input (resp. output) list
with the whitespace separated symbols after the keyword, tolerating an
optional colon.  Lines recognizing neither keyword are ignored; a content
with no recognizable line yields two empty lists and no error. -/

/-- Extract the symbol list from a declaration line: remove every
occurrence of the keyword, strip, drop an optional leading colon, strip,
and split into words.  Models lines 81 to 86 and 89 to 94 of the source. -/
def parseDeclLine (keyword line : String) : List String :=
  let rest := pyStrip (stripOcc keyword line)
  let rest :=
    match rest.data with
    | ':' :: ds => pyStrip ⟨ds⟩
    | _ => rest
  pyWords rest

/-- Fold the lines of a .part content, models the loop at lines 77 to 94
of the source: later declaration lines overwrite earlier ones. -/
def parsePartLines : List String → List String × List String → List String × List String
  | [], st => st
  | line :: rest, (ins, outs) =>
    let l := pyStrip line
    if startsWithL l.data ".inputs".data then
      parsePartLines rest (parseDeclLine ".inputs" l, outs)
    else if startsWithL l.data ".outputs".data then
      parsePartLines rest (ins, parseDeclLine ".outputs" l)
    else
      parsePartLines rest (ins, outs)

/-- Parse a whole .part content: strip it, split it into lines, process
each line.  Both lists start empty. -/
def parsePart (content : String) : List String × List String :=
  parsePartLines (splitNl (pyStrip content)) ([], [])

/-- Errors load_files can raise: only a missing artifact whose path has a
directory component. -/
inductive LoadErr where
  | fileNotFound
deriving DecidableEq, Repr

/-- Result of loading: the record fields together with the flag telling
whether the empty formula warning was printed. -/
structure LoadResult where
  inputs : List String
  outputs : List String
  ltlf_formula : String
  warnedEmpty : Bool
deriving DecidableEq, Repr

/-- Model of LTLFPair.load_files.  File contents are passed explicitly:
none stands for a missing file; partHasDir and ltlfHasDir tell whether
the corresponding path has a directory component (os.path.dirname is
nonempty), which decides whether a missing file is an error or is
silently replaced by empty data.  A .part content with no recognizable
declaration line loads as empty lists, and a blank .ltlf content loads as
the empty formula with only a printed warning: no format error exists. -/
def load_files (partContent ltlfContent : Option String)
    (partHasDir ltlfHasDir : Bool) : Except LoadErr LoadResult :=
  match partContent with
  | none =>
    if partHasDir then .error .fileNotFound
    else loadLtlf [] [] ltlfContent ltlfHasDir
  | some c =>
    let (ins, outs) := parsePart c
    loadLtlf ins outs ltlfContent ltlfHasDir
where
  loadLtlf (ins outs : List String) (ltlfContent : Option String)
      (ltlfHasDir : Bool) : Except LoadErr LoadResult :=
    match ltlfContent with
    | none =>
      if ltlfHasDir then .error .fileNotFound
      else .ok ⟨ins, outs, "", false⟩
    | some c =>
      let f := pyStrip c
      .ok ⟨ins, outs, f, f.data.isEmpty⟩

/-! ## Serialization (LTLFPair.write_files)

The .part content written back: two lines, inputs then outputs, each
space joined and sorted with the plain Python sorted(), which compares
strings lexicographically. -/

/-- The .part text written by write_files (lines 169 and 170 of the
source). -/
def partText (inputs outputs : List String) : String :=
  ".inputs: " ++ joinSp (pySorted strLe inputs) ++ "\n" ++
  ".outputs: " ++ joinSp (pySorted strLe outputs) ++ "\n"

/-! ## Token rewriting

re.sub with word boundaries around an escaped symbol replaces exactly the
maximal word character runs equal to the symbol.  The formula is split
into maximal runs of word and non word characters, matching runs are
replaced, and the runs are joined back. -/

/-- Split into maximal runs of characters with the same word class. -/
def splitRuns : List Char → List (List Char)
  | [] => []
  | c :: cs =>
    match splitRuns cs with
    | [] => [[c]]
    | [] :: rest => [c] :: [] :: rest
    | (d :: ds) :: rest =>
      if isWordChar c == isWordChar d then (c :: d :: ds) :: rest
      else [c] :: (d :: ds) :: rest

/-- Replace every maximal run equal to old by new. -/
def replaceWordL (old new : List Char) (cs : List Char) : List Char :=
  ((splitRuns cs).map (fun run => if run = old then new else run)).flatten

/-- Whole token replacement of one symbol in a formula, the model of one
re.sub call with word boundaries (faithful for symbols made of word
characters, which declared symbols are). -/
def replaceWord (s old new : String) : String :=
  ⟨replaceWordL old.data new.data s.data⟩

/-- Apply an ordered list of substitutions one after the other, each as
a whole text pass, exactly as the loop of re.sub calls does. -/
def applySubsts (m : List (String × String)) (f : String) : String :=
  m.foldl (fun acc kv => replaceWord acc kv.1 kv.2) f

/-- Sort mapping items by decreasing length of the original symbol,
stably, as sorted(..., key=len, reverse=True) does before substitution. -/
def sortLenDesc (m : List (String × String)) : List (String × String) :=
  pySorted (fun a b => Nat.ble b.1.length a.1.length) m

/-! ## The merge engine (LTLFMerger.merge_pairs) -/

/-- Exceptions merge_pairs can raise on the modelled paths: IndexError
from pairs[1] when fewer than two pairs reach the general branch, and
ValueError from int() on a variable with a malformed numeric suffix. -/
inductive MergeErr where
  | indexError
  | valueError
deriving DecidableEq, Repr

/-- Python dict assignment: replace the value in place when the key is
present, append otherwise. -/
def alUpdate : List (String × String) → String → String → List (String × String)
  | [], k, v => [(k, v)]
  | (k0, v0) :: rest, k, v =>
    if k0 = k then (k, v) :: rest else (k0, v0) :: alUpdate rest k v

/-- The set of .ltlf paths of the pairs declaring v as an input: the
var_to_files table of lines 240 to 243 of the source. -/
def varFiles (pairs : List LTLFPair) (v : String) : List String :=
  distinct ((pairs.filter (fun p => p.inputs.contains v)).map (·.ltlf_path))

/-- Every input symbol declared by any pair, deduplicated, first seen
order. -/
def allInputVars (pairs : List LTLFPair) : List String :=
  distinct ((pairs.map (·.inputs)).flatten)

/-- A variable conflict exists when some input symbol is declared by two
pairs with different .ltlf paths (line 250 of the source). -/
def hasConflicts (pairs : List LTLFPair) : Bool :=
  (allInputVars pairs).any (fun v => (varFiles pairs v).length > 1)

/-- The ad hoc test detection of line 216 of the source: the output
directory path contains the substring test_files and some pair declares
exactly five inputs. -/
def is_max_inputs_test (output_dir : String) (pairs : List LTLFPair) : Bool :=
  containsSub output_dir "test_files" && pairs.any (fun p => p.inputs.length == 5)

/-- The position wise mapping built on the test branch (lines 223 to
231): for every position i below the maximum input count, every pair
maps its i-th input symbol to the fresh name of index i+1, and that name
is recorded as used. -/
def testLoop (pairs : List LTLFPair) (maxInputs : Nat) :
    List (String × String) × List String :=
  (List.range maxInputs).foldl
    (fun (st : List (String × String) × List String) i =>
      let m := pairs.foldl
        (fun m p =>
          match p.inputs.get? i with
          | some v => alUpdate m v (pName (i + 1))
          | none => m)
        st.1
      (m, st.2 ++ [pName (i + 1)]))
    ([], [])

/-- Scan the sorted candidate list once, adding to the group every
variable whose file set is disjoint from the accumulated file set
(lines 271 to 276 of the source).  Returns the added variables in scan
order, the remaining variables in order, and the final file set. -/
def growGroup (vFiles : String → List String) (files : List String) :
    List String → List String × List String × List String
  | [] => ([], [], files)
  | v :: vs =>
    if (vFiles v).any (files.contains ·) then
      let (g, rem, fs) := growGroup vFiles files vs
      (g, v :: rem, fs)
    else
      let (g, rem, fs) := growGroup vFiles (files ++ vFiles v) vs
      (v :: g, rem, fs)

/-- The grouping loop of lines 263 to 278: repeatedly seed a group with
the lowest remaining variable and grow it, while variables remain and
fewer than maxInputs groups exist.  Fuel is the length of the remaining
list; each iteration consumes at least the seed, so the fuel suffices. -/
def buildGroupsAux (vFiles : String → List String) (maxInputs : Nat) :
    Nat → List String → Nat → List (List String)
  | 0, _, _ => []
  | _ + 1, [], _ => []
  | fuel + 1, v :: vs, count =>
    if count < maxInputs then
      let (g, rem, _) := growGroup vFiles (vFiles v) vs
      (v :: g) :: buildGroupsAux vFiles maxInputs fuel rem (count + 1)
    else []

/-- Map every variable of the i-th group (counting from i0) to the fresh
name of index i+1, group after group (lines 281 to 286). -/
def buildGroupMapAux : Nat → List (List String) → List (String × String)
  | _, [] => []
  | i, g :: gs => g.map (fun v => (v, pName (i + 1))) ++ buildGroupMapAux (i + 1) gs

/-- Map every variable of the i-th group to the fresh name of index i+1
(lines 281 to 286). -/
def buildGroupMap (groups : List (List String)) : List (String × String) :=
  buildGroupMapAux 0 groups

/-- The padding loop of lines 289 to 292: append fresh names until the
used set reaches maxInputs elements.  Each step adds one element so the
fuel maxInputs - length is exact. -/
def padUsedF : Nat → List String → Nat → List String
  | 0, used, _ => used
  | fuel + 1, used, idx => padUsedF fuel (used ++ [pName idx]) (idx + 1)

/-- Pad the used list up to maxInputs names, continuing the counter. -/
def padUsed (used : List String) (idx maxInputs : Nat) : List String :=
  padUsedF (maxInputs - used.length) used idx

/-- The skipping loop of lines 302 to 303: the smallest index at or
after i whose fresh name is not already a used input.  Fuel bounded by
the size of the used list plus one always suffices. -/
def nextFree (used : List String) : Nat → Nat → Nat
  | i, 0 => i
  | i, fuel + 1 =>
    if used.contains (pName i) then nextFree used (i + 1) fuel else i

/-- The output mapping loop of lines 299 to 306: walk the sorted distinct
output symbols, and give each not yet mapped symbol the next fresh name
that does not collide with a used input. -/
def outputAssignAux (used : List String) :
    List String → Nat → List (String × String) → List (String × String)
  | [], _, m => m
  | v :: vs, idx, m =>
    if (List.lookup v m).isSome then outputAssignAux used vs idx m
    else
      let nf := nextFree used idx (used.length + 1)
      outputAssignAux used vs (nf + 1) (m ++ [(v, pName nf)])

/-- The general (non test) branch of the input renaming, lines 233 to
292 of the source, with p0 and p1 the first two pairs (the source reads
pairs[0] and pairs[1] at line 237). -/
def generalInputs (p0 p1 : LTLFPair) (pairs : List LTLFPair) :
    Except MergeErr (List (String × String) × List String) :=
  let maxInputs := max p0.inputs.length p1.inputs.length
  let allIn := allInputVars pairs
  if allIn.all (fun v => (varKey v).isSome) then
    let allVars := pySorted keyLe allIn
    if hasConflicts pairs then
      let groups := buildGroupsAux (varFiles pairs) maxInputs
        allVars.length allVars 0
      .ok (buildGroupMap groups,
        padUsed ((List.range' 1 groups.length).map pName)
          (groups.length + 1) maxInputs)
    else
      let tk := allVars.take maxInputs
      .ok (tk.map (fun v => (v, v)), tk)
  else .error .valueError

/-- Dispatch to the general branch: reading pairs[0] and pairs[1] at
line 237 raises IndexError when fewer than two pairs are present. -/
def generalDispatch : List LTLFPair → Except MergeErr (List (String × String) × List String)
  | [] => .error .indexError
  | [_] => .error .indexError
  | p0 :: p1 :: rest => generalInputs p0 p1 (p0 :: p1 :: rest)

/-- The input renaming state computed by lines 212 to 292 of the source:
the input mapping and the used input names, or the exception raised. -/
def buildInputs (pairs : List LTLFPair) (isTest : Bool) :
    Except MergeErr (List (String × String) × List String) :=
  if isTest then
    let maxInputs0 := pairs.foldl (fun m p => max m p.inputs.length) 0
    .ok (testLoop pairs maxInputs0)
  else generalDispatch pairs

/-- The full state computed by one merge: both mappings, the used input
names, the merged formula, and the two sorted merged symbol lists. -/
structure MergeSt where
  inputMap : List (String × String)
  usedInputs : List String
  outMap : List (String × String)
  formula : String
  ins : List String
  outs : List String
deriving DecidableEq, Repr

/-- Everything merge_pairs computes after the empty list early return,
given the already decided test branch flag: the renaming state, the
output mapping (lines 293 to 306), the merged formula (lines 308 to 324)
and the merged symbol lists (lines 333 and 334). -/
def merge_pairs_core (pairs : List LTLFPair) (isTest : Bool) :
    Except MergeErr MergeSt :=
  (buildInputs pairs isTest).map (fun iu =>
    let imap := iu.1
    let used := iu.2
    let allOutputs := (pairs.map (·.outputs)).flatten
    let omap := outputAssignAux used (pySorted strLe (distinct allOutputs)) 1 []
    let imapS := sortLenDesc imap
    let omapS := sortLenDesc omap
    let formula := pairs.enum.foldl
      (fun acc ip =>
        let f := applySubsts omapS (applySubsts imapS ip.2.ltlf_formula)
        if ip.1 = 0 then "(" ++ f ++ ")"
        else "(" ++ acc ++ ") && (" ++ f ++ ")")
      ""
    ⟨imap, used, omap, formula,
      pySorted strLe (distinct used),
      pySorted strLe (distinct (omap.map (·.2)))⟩)

/-- Model of LTLFMerger.merge_pairs: the returned triple of merged
formula, merged input list and merged output list, or the exception
raised.  Directory creation and the final write_files call are side
effects that do not alter the returned value and are not modelled. -/
def merge_pairs (pairs : List LTLFPair) (output_dir : String) :
    Except MergeErr (String × List String × List String) :=
  if pairs.isEmpty then .ok ("", [], [])
  else
    (merge_pairs_core pairs (is_max_inputs_test output_dir pairs)).map
      (fun st => (st.formula, st.ins, st.outs))

/-! ## Concrete records used as witnesses and counterexamples

These model loaded pairs with the artifact contents shown in the doc
comments; each is a plain instance of the data model above. -/

/-- Record with inputs p1 p5, outputs p10 p15, formula G(p1 -> X[!](p10)):
the first record of the non contiguous numbering scenario of the spec. -/
def recGapA : LTLFPair :=
  ⟨"a.ltlf", "a.part", ["p1", "p5"], ["p10", "p15"], "G(p1 -> X[!](p10))"⟩

/-- Record with inputs p3 p7, outputs p12 p17, formula G(p3 -> X[!](p12)):
the second record of the non contiguous numbering scenario of the spec. -/
def recGapB : LTLFPair :=
  ⟨"b.ltlf", "b.part", ["p3", "p7"], ["p12", "p17"], "G(p3 -> X[!](p12))"⟩

/-- Record with the single input p1 and formula G(p1). -/
def recG1 : LTLFPair := ⟨"a.ltlf", "a.part", ["p1"], [], "G(p1)"⟩

/-- Record with the single input p2 and formula F(p2). -/
def recF2 : LTLFPair := ⟨"b.ltlf", "b.part", ["p2"], [], "F(p2)"⟩

/-- Record declaring five inputs, which triggers the test branch when
the output directory mentions test_files. -/
def recFive : LTLFPair :=
  ⟨"a.ltlf", "a.part", ["p1", "p2", "p3", "p4", "p5"], [], "G(p1)"⟩

/-- Record with inputs p1 p2 and no outputs, formula G(p1). -/
def recIn12 : LTLFPair := ⟨"a.ltlf", "a.part", ["p1", "p2"], [], "G(p1)"⟩

/-- Record with inputs p3 p4 and no outputs, formula F(p3). -/
def recIn34 : LTLFPair := ⟨"b.ltlf", "b.part", ["p3", "p4"], [], "F(p3)"⟩

/-- Record declaring p2 as input, formula F(p2), and p1 as output: used
to cross a symbol between roles. -/
def recOutP1 : LTLFPair := ⟨"b.ltlf", "b.part", ["p2"], ["p1"], "F(p2)"⟩

/-- Record declaring the input p1 twice (the .part line repeats the
symbol), formula G(p1). -/
def recDup : LTLFPair := ⟨"a.ltlf", "a.part", ["p1", "p1"], [], "G(p1)"⟩

/-- Record declaring the single input p1, formula F(p1), distinct path. -/
def recF1 : LTLFPair := ⟨"b.ltlf", "b.part", ["p1"], [], "F(p1)"⟩

/-- Third record with inputs p1 p2 p3 and formula X(p2): with two
single input records ahead of it, its larger input count is ignored by
the padding bound. -/
def recWide : LTLFPair := ⟨"c.ltlf", "c.part", ["p1", "p2", "p3"], [], "X(p2)"⟩

/-- The bracketing applied to the first rewritten formula (line 322 of
the source). -/
def wrapFirst (f : String) : String := "(" ++ f ++ ")"

/-- The bracketing applied at every later step (line 324 of the source):
the whole accumulated formula is rewrapped and conjoined with the next
rewritten formula. -/
def wrapAccum (acc f : String) : String := "(" ++ acc ++ ") && (" ++ f ++ ")"

/-- The rewriting merge applies to one record given the final state: the
input substitutions first, then the output substitutions, both in stable
decreasing key length order (lines 315 to 318 of the source). -/
def rewriteWith (st : MergeSt) (p : LTLFPair) : String :=
  applySubsts (sortLenDesc st.outMap) (applySubsts (sortLenDesc st.inputMap) p.ltlf_formula)

/-- The merged formula shape the specification describes: each rewritten
constituent wrapped in parentheses, joined with the binary conjunction,
and the whole wrapped in one more enclosing pair.  Stated from the words
of the spec for comparison with the implementation. -/
def specMergedFormula (fs : List String) : String :=
  "(" ++ joinAnd (fs.map (fun f => "(" ++ f ++ ")")) ++ ")"
where
  joinAnd : List String → String
    | [] => ""
    | [x] => x
    | x :: xs => x ++ " && " ++ joinAnd xs

/-! ## Generic lemmas about the list utilities -/

theorem contains_iff (l : List String) (x : String) :
    l.contains x = true ↔ x ∈ l := List.elem_iff

theorem mem_insertSorted {α : Type} (le : α → α → Bool) (x a : α) :
    ∀ l : List α, a ∈ insertSorted le x l ↔ a = x ∨ a ∈ l := by
  intro l
  induction l with
  | nil => simp [insertSorted]
  | cons y ys ih =>
    simp only [insertSorted]
    by_cases h : le y x = true
    · rw [if_pos h]
      simp only [List.mem_cons, ih]
      tauto
    · rw [if_neg h]
      simp only [List.mem_cons]

theorem length_insertSorted {α : Type} (le : α → α → Bool) (x : α) :
    ∀ l : List α, (insertSorted le x l).length = l.length + 1 := by
  intro l
  induction l with
  | nil => rfl
  | cons y ys ih =>
    simp only [insertSorted]
    by_cases h : le y x = true
    · simp [h, ih]
    · simp [h]

theorem mem_pySorted_aux {α : Type} (le : α → α → Bool) (a : α) :
    ∀ (l acc : List α),
      a ∈ List.foldl (fun acc x => insertSorted le x acc) acc l ↔ a ∈ acc ∨ a ∈ l := by
  intro l
  induction l with
  | nil => simp
  | cons x xs ih =>
    intro acc
    simp only [List.foldl_cons, ih, mem_insertSorted, List.mem_cons]
    tauto

theorem mem_pySorted {α : Type} (le : α → α → Bool) (a : α) (l : List α) :
    a ∈ pySorted le l ↔ a ∈ l := by
  simp [pySorted, mem_pySorted_aux]

theorem length_pySorted {α : Type} (le : α → α → Bool) :
    ∀ (l acc : List α),
      (List.foldl (fun acc x => insertSorted le x acc) acc l).length
        = acc.length + l.length := by
  intro l
  induction l with
  | nil => simp
  | cons x xs ih =>
    intro acc
    simp only [List.foldl_cons, ih, length_insertSorted, List.length_cons]
    omega

theorem pySorted_length {α : Type} (le : α → α → Bool) (l : List α) :
    (pySorted le l).length = l.length := by
  simp [pySorted, length_pySorted]

theorem perm_insertSorted {α : Type} (le : α → α → Bool) (x : α) :
    ∀ l : List α, List.Perm (insertSorted le x l) (x :: l) := by
  intro l
  induction l with
  | nil => simp [insertSorted]
  | cons y ys ih =>
    simp only [insertSorted]
    by_cases h : le y x = true
    · simp only [h, if_true]
      exact ((ih.cons y).trans (List.Perm.swap x y ys))
    · simp [h]

theorem perm_pySorted_aux {α : Type} (le : α → α → Bool) :
    ∀ (l acc : List α),
      List.Perm (List.foldl (fun acc x => insertSorted le x acc) acc l) (acc ++ l) := by
  intro l
  induction l with
  | nil => simp
  | cons x xs ih =>
    intro acc
    simp only [List.foldl_cons]
    refine (ih (insertSorted le x acc)).trans ?_
    refine (List.Perm.append_right xs (perm_insertSorted le x acc)).trans ?_
    exact List.perm_middle.symm

theorem perm_pySorted {α : Type} (le : α → α → Bool) (l : List α) :
    List.Perm (pySorted le l) l := by
  simpa [pySorted] using perm_pySorted_aux le l []

theorem pairwise_insertSorted {α : Type} (le : α → α → Bool)
    (htot : ∀ a b, le a b = true ∨ le b a = true)
    (htr : ∀ a b c, le a b = true → le b c = true → le a c = true)
    (x : α) :
    ∀ l : List α, l.Pairwise (fun a b => le a b = true) →
      (insertSorted le x l).Pairwise (fun a b => le a b = true) := by
  intro l
  induction l with
  | nil => simp [insertSorted]
  | cons y ys ih =>
    intro h
    rcases List.pairwise_cons.mp h with ⟨hy, hys⟩
    simp only [insertSorted]
    by_cases hle : le y x = true
    · simp only [hle, if_true]
      refine List.pairwise_cons.mpr ⟨?_, ih hys⟩
      intro z hz
      rcases (mem_insertSorted le x z ys).mp hz with rfl | hz
      · exact hle
      · exact hy z hz
    · simp only [hle, if_false]
      have hxy : le x y = true := by
        rcases htot x y with h1 | h1
        · exact h1
        · exact absurd h1 hle
      refine List.pairwise_cons.mpr ⟨?_, h⟩
      intro z hz
      rcases List.mem_cons.mp hz with rfl | hz
      · exact hxy
      · exact htr x y z hxy (hy z hz)

theorem pairwise_pySorted {α : Type} (le : α → α → Bool)
    (htot : ∀ a b, le a b = true ∨ le b a = true)
    (htr : ∀ a b c, le a b = true → le b c = true → le a c = true)
    (l : List α) :
    (pySorted le l).Pairwise (fun a b => le a b = true) := by
  suffices h : ∀ (l acc : List α), acc.Pairwise (fun a b => le a b = true) →
      (List.foldl (fun acc x => insertSorted le x acc) acc l).Pairwise
        (fun a b => le a b = true) by
    exact h l [] List.Pairwise.nil
  intro l
  induction l with
  | nil => intro acc h; simpa using h
  | cons x xs ih =>
    intro acc h
    exact ih (insertSorted le x acc) (pairwise_insertSorted le htot htr x acc h)

theorem mem_distinctAux (x : String) :
    ∀ (l seen : List String), x ∈ distinctAux l seen ↔ x ∈ l ∧ x ∉ seen := by
  intro l
  induction l with
  | nil => simp [distinctAux]
  | cons y ys ih =>
    intro seen
    simp only [distinctAux]
    by_cases h : seen.contains y = true
    · rw [if_pos h]
      have hy : y ∈ seen := (contains_iff seen y).mp h
      simp only [ih, List.mem_cons]
      constructor
      · rintro ⟨hx, hns⟩; exact ⟨Or.inr hx, hns⟩
      · rintro ⟨hx | hx, hns⟩
        · exact absurd hy (hx ▸ hns)
        · exact ⟨hx, hns⟩
    · rw [if_neg h]
      have hy : y ∉ seen := fun hc => h ((contains_iff seen y).mpr hc)
      simp only [List.mem_cons, ih]
      constructor
      · rintro (rfl | ⟨hx, hns⟩)
        · exact ⟨Or.inl rfl, hy⟩
        · exact ⟨Or.inr hx, fun hc => hns (Or.inr hc)⟩
      · rintro ⟨rfl | hx, hns⟩
        · exact Or.inl rfl
        · by_cases hxy : x = y
          · exact Or.inl hxy
          · exact Or.inr ⟨hx, fun hc => hc.elim hxy hns⟩

theorem mem_distinct (x : String) (l : List String) :
    x ∈ distinct l ↔ x ∈ l := by
  simp [distinct, mem_distinctAux]

theorem distinctAux_eq_self :
    ∀ (l seen : List String), l.Nodup → (∀ x ∈ l, x ∉ seen) →
      distinctAux l seen = l := by
  intro l
  induction l with
  | nil => intro seen _ _; rfl
  | cons y ys ih =>
    intro seen hnd hsn
    have hy : y ∉ seen := hsn y (List.mem_cons_self y ys)
    have hc : seen.contains y = false := by
      cases hcc : seen.contains y with
      | false => rfl
      | true => exact absurd ((contains_iff seen y).mp hcc) hy
    simp only [distinctAux, hc]
    rw [if_neg (by simp [hc])]
    congr 1
    refine ih (y :: seen) (List.Nodup.of_cons hnd) ?_
    intro x hx hmem
    rcases List.mem_cons.mp hmem with rfl | hmem
    · exact (List.nodup_cons.mp hnd).1 hx
    · exact hsn x (List.mem_cons.mpr (Or.inr hx)) hmem

theorem distinct_eq_self (l : List String) (h : l.Nodup) : distinct l = l :=
  distinctAux_eq_self l [] h (by simp)

theorem lookup_mem {k v : String} :
    ∀ l : List (String × String), List.lookup k l = some v → (k, v) ∈ l := by
  intro l
  induction l with
  | nil => intro h; simp [List.lookup] at h
  | cons kv rest ih =>
    intro h
    rcases kv with ⟨a, b⟩
    rw [List.lookup] at h
    cases hk : k == a with
    | true =>
      rw [hk] at h
      simp only [] at h
      have hka : k = a := by simpa using hk
      have hbv : b = v := by simpa using h
      exact List.mem_cons.mpr (Or.inl (by rw [hka, hbv]))
    | false =>
      rw [hk] at h
      exact List.mem_cons.mpr (Or.inr (ih h))

theorem lookup_append_some {k v : String} :
    ∀ (m m2 : List (String × String)), List.lookup k m = some v →
      List.lookup k (m ++ m2) = some v := by
  intro m
  induction m with
  | nil => intro m2 h; simp [List.lookup] at h
  | cons kv rest ih =>
    intro m2 h
    rcases kv with ⟨a, b⟩
    rw [List.cons_append, List.lookup]
    rw [List.lookup] at h
    cases hk : k == a with
    | true => rw [hk] at h; exact h
    | false => rw [hk] at h; exact ih m2 h

theorem lookup_append_of_none {k : String} :
    ∀ (m m2 : List (String × String)), List.lookup k m = none →
      List.lookup k (m ++ m2) = List.lookup k m2 := by
  intro m
  induction m with
  | nil => intro m2 _; rfl
  | cons kv rest ih =>
    intro m2 h
    rcases kv with ⟨a, b⟩
    rw [List.cons_append, List.lookup]
    rw [List.lookup] at h
    cases hk : k == a with
    | true => rw [hk] at h; exact absurd h (by simp)
    | false => rw [hk] at h; exact ih m2 h

theorem nodup_subset_length {l1 l2 : List String} (hnd : l1.Nodup)
    (hsub : l1 ⊆ l2) : l1.length ≤ l2.length := by
  calc l1.length = l1.toFinset.card := (List.toFinset_card_of_nodup hnd).symm
    _ ≤ l2.toFinset.card := Finset.card_le_card (fun x hx => by
        rw [List.mem_toFinset] at hx ⊢; exact hsub hx)
    _ ≤ l2.length := List.toFinset_card_le l2

/-! ## The lexicographic order is total and transitive -/

theorem listLe_total : ∀ a b : List Char, listLe a b = true ∨ listLe b a = true := by
  intro a
  induction a with
  | nil => intro b; left; rfl
  | cons c cs ih =>
    intro b
    cases b with
    | nil => right; rfl
    | cons d ds =>
      simp only [listLe]
      rcases Nat.lt_trichotomy c.toNat d.toNat with h | h | h
      · left; rw [if_pos h]
      · rw [if_neg (by omega), if_neg (by omega), if_neg (by omega), if_neg (by omega)]
        exact ih ds
      · right; rw [if_pos h]

theorem listLe_trans :
    ∀ a b c : List Char, listLe a b = true → listLe b c = true → listLe a c = true := by
  intro a
  induction a with
  | nil => intro b c _ _; rfl
  | cons x xs ih =>
    intro b c hab hbc
    cases b with
    | nil => simp [listLe] at hab
    | cons y ys =>
      cases c with
      | nil => simp [listLe] at hbc
      | cons z zs =>
        simp only [listLe] at hab hbc ⊢
        rcases Nat.lt_trichotomy x.toNat y.toNat with h1 | h1 | h1
        · rcases Nat.lt_trichotomy y.toNat z.toNat with h2 | h2 | h2
          · rw [if_pos (by omega)]
          · rw [if_pos (by omega)]
          · rw [if_neg (by omega)] at hbc
            rw [if_pos h2] at hbc
            cases hbc
        · rcases Nat.lt_trichotomy y.toNat z.toNat with h2 | h2 | h2
          · rw [if_pos (by omega)]
          · rw [if_neg (by omega), if_neg (by omega)]
            rw [if_neg (by omega), if_neg (by omega)] at hab
            rw [if_neg (by omega), if_neg (by omega)] at hbc
            exact ih ys zs hab hbc
          · rw [if_neg (by omega), if_pos h2] at hbc
            cases hbc
        · rw [if_neg (by omega), if_pos h1] at hab
          cases hab

theorem strLe_total : ∀ a b : String, strLe a b = true ∨ strLe b a = true :=
  fun a b => listLe_total a.data b.data

theorem strLe_trans :
    ∀ a b c : String, strLe a b = true → strLe b c = true → strLe a c = true :=
  fun a b c => listLe_trans a.data b.data c.data

/-! ## Injectivity of the generated names -/

theorem digitVal_digitChar {d : Nat} (h : d < 10) : digitVal (digitChar d) = d := by
  interval_cases d <;> rfl

theorem digsVal_append (cs : List Char) (c : Char) :
    digsVal (cs ++ [c]) = digsVal cs * 10 + digitVal c := by
  simp [digsVal, List.foldl_append]

theorem digsVal_natDigsF : ∀ fuel n, n ≤ fuel → digsVal (natDigsF fuel n) = n := by
  intro fuel
  induction fuel with
  | zero =>
    intro n hn
    have : n = 0 := Nat.le_zero.mp hn
    subst this
    simp [natDigsF, digsVal, digitVal, digitChar]
  | succ f ih =>
    intro n hn
    by_cases h : n < 10
    · simp only [natDigsF, if_pos h]
      simp [digsVal, digitVal_digitChar h]
    · simp only [natDigsF, if_neg h]
      rw [digsVal_append]
      have h10 : 10 ≤ n := Nat.le_of_not_lt h
      have hdiv : n / 10 ≤ f := by
        have : n / 10 < n := Nat.div_lt_self (by omega) (by omega)
        omega
      rw [ih (n / 10) hdiv, digitVal_digitChar (Nat.mod_lt n (by omega))]
      omega

theorem digsVal_natDigs (n : Nat) : digsVal (natDigs n) = n :=
  digsVal_natDigsF n n (Nat.le_refl n)

theorem pName_inj : Function.Injective pName := by
  intro i j h
  have hd : 'p' :: natDigs i = 'p' :: natDigs j := by
    have := congrArg String.data h
    simpa [pName] using this
  have : natDigs i = natDigs j := by injection hd
  calc i = digsVal (natDigs i) := (digsVal_natDigs i).symm
    _ = digsVal (natDigs j) := by rw [this]
    _ = j := digsVal_natDigs j

/-! ## Correctness of the fresh name search -/

theorem nextFree_spec (used : List String) :
    ∀ fuel i, (∃ j, i ≤ j ∧ j < i + fuel ∧ used.contains (pName j) = false) →
      used.contains (pName (nextFree used i fuel)) = false := by
  intro fuel
  induction fuel with
  | zero =>
    rintro i ⟨j, hj1, hj2, _⟩
    omega
  | succ f ih =>
    rintro i ⟨j, hj1, hj2, hj3⟩
    simp only [nextFree]
    cases hc : used.contains (pName i) with
    | false => exact hc
    | true =>
      rw [if_pos rfl]
      refine ih (i + 1) ⟨j, ?_, by omega, hj3⟩
      rcases Nat.eq_or_lt_of_le hj1 with rfl | hlt
      · rw [hj3] at hc; cases hc
      · omega

theorem exists_free (used : List String) (i : Nat) :
    ∃ j, i ≤ j ∧ j < i + (used.length + 1) ∧ used.contains (pName j) = false := by
  by_contra hcon
  push_neg at hcon
  have hall : ∀ j, i ≤ j → j < i + (used.length + 1) → pName j ∈ used := by
    intro j h1 h2
    have := hcon j h1 h2
    have hb : used.contains (pName j) = true := by
      cases hc : used.contains (pName j) with
      | false => exact absurd hc this
      | true => rfl
    exact (contains_iff used (pName j)).mp hb
  set L : List String := (List.range (used.length + 1)).map (fun k => pName (i + k)) with hL
  have hnd : L.Nodup := by
    refine List.Nodup.map ?_ (List.nodup_range _)
    intro a b hab
    have := pName_inj hab
    omega
  have hsub : L ⊆ used := by
    intro x hx
    rw [hL, List.mem_map] at hx
    rcases hx with ⟨k, hk, rfl⟩
    rw [List.mem_range] at hk
    exact hall (i + k) (by omega) (by omega)
  have hlen : L.length = used.length + 1 := by
    rw [hL, List.length_map, List.length_range]
  have := nodup_subset_length hnd hsub
  omega

theorem nextFree_not_used (used : List String) (i : Nat) :
    used.contains (pName (nextFree used i (used.length + 1))) = false :=
  nextFree_spec used (used.length + 1) i (exists_free used i)

/-! ## Structure of the input renaming state -/

theorem padUsedF_eq :
    ∀ (fuel : Nat) (used : List String) (idx : Nat),
      padUsedF fuel used idx = used ++ (List.range' idx fuel).map pName := by
  intro fuel
  induction fuel with
  | zero => intro used idx; simp [padUsedF]
  | succ f ih =>
    intro used idx
    rw [padUsedF, ih]
    have : List.range' idx (f + 1) = idx :: List.range' (idx + 1) f := rfl
    rw [this]
    simp

theorem buildGroupsAux_length_le (vFiles : String → List String) (maxI : Nat) :
    ∀ (fuel : Nat) (rem : List String) (count : Nat),
      (buildGroupsAux vFiles maxI fuel rem count).length ≤ maxI - count := by
  intro fuel
  induction fuel with
  | zero => intro rem count; simp [buildGroupsAux]
  | succ f ih =>
    intro rem count
    cases rem with
    | nil => simp [buildGroupsAux]
    | cons v vs =>
      simp only [buildGroupsAux]
      by_cases h : count < maxI
      · rw [if_pos h]
        show ((v :: (growGroup vFiles (vFiles v) vs).1)
          :: buildGroupsAux vFiles maxI f
              (growGroup vFiles (vFiles v) vs).2.1 (count + 1)).length ≤ maxI - count
        have := ih (growGroup vFiles (vFiles v) vs).2.1 (count + 1)
        simp only [List.length_cons]
        omega
      · rw [if_neg h]; simp

theorem conflict_used_eq (g maxI : Nat) (hg : g ≤ maxI) :
    padUsed ((List.range' 1 g).map pName) (g + 1) maxI
      = (List.range' 1 maxI).map pName := by
  rw [padUsed, padUsedF_eq]
  have hlen : ((List.range' 1 g).map pName).length = g := by simp
  rw [hlen]
  rw [← List.map_append]
  congr 1
  have := List.range'_append 1 g (maxI - g) 1
  simp only [Nat.mul_one, Nat.one_mul] at this
  have h2 : 1 + g = g + 1 := Nat.add_comm 1 g
  rw [h2] at this
  rw [this]
  congr 1
  omega

theorem buildGroupMapAux_val :
    ∀ (gs : List (List String)) (i : Nat) (kv : String × String),
      kv ∈ buildGroupMapAux i gs → ∃ j, j < gs.length ∧ kv.2 = pName (i + j + 1) := by
  intro gs
  induction gs with
  | nil => intro i kv h; simp [buildGroupMapAux] at h
  | cons g rest ih =>
    intro i kv h
    rw [buildGroupMapAux] at h
    rcases List.mem_append.mp h with h | h
    · rcases List.mem_map.mp h with ⟨v, _, rfl⟩
      exact ⟨0, by simp, by simp⟩
    · rcases ih (i + 1) kv h with ⟨j, hj, hv⟩
      exact ⟨j + 1, by simp; omega, by rw [hv]; congr 1; omega⟩

theorem alUpdate_mem :
    ∀ (m : List (String × String)) (k v : String) (kv : String × String),
      kv ∈ alUpdate m k v → kv ∈ m ∨ kv.2 = v := by
  intro m
  induction m with
  | nil =>
    intro k v kv h
    rcases List.mem_singleton.mp h with rfl
    exact Or.inr rfl
  | cons kv0 rest ih =>
    intro k v kv h
    rcases kv0 with ⟨k0, v0⟩
    rw [alUpdate] at h
    by_cases hk : k0 = k
    · rw [if_pos hk] at h
      rcases List.mem_cons.mp h with rfl | h
      · exact Or.inr rfl
      · exact Or.inl (List.mem_cons.mpr (Or.inr h))
    · rw [if_neg hk] at h
      rcases List.mem_cons.mp h with rfl | h
      · exact Or.inl (List.mem_cons.mpr (Or.inl rfl))
      · rcases ih k v kv h with h | h
        · exact Or.inl (List.mem_cons.mpr (Or.inr h))
        · exact Or.inr h

theorem testInner_val (i : Nat) :
    ∀ (pairs : List LTLFPair) (m : List (String × String)) (kv : String × String),
      kv ∈ pairs.foldl
        (fun m p =>
          match p.inputs.get? i with
          | some v => alUpdate m v (pName (i + 1))
          | none => m) m →
      kv ∈ m ∨ kv.2 = pName (i + 1) := by
  intro pairs
  induction pairs with
  | nil => intro m kv h; exact Or.inl h
  | cons p rest ih =>
    intro m kv h
    rw [List.foldl_cons] at h
    cases hp : p.inputs.get? i with
    | none =>
      rw [hp] at h
      exact ih m kv h
    | some v =>
      rw [hp] at h
      rcases ih _ kv h with h | h
      · exact (alUpdate_mem m v (pName (i + 1)) kv h).imp_left id
      · exact Or.inr h

theorem testLoop_val_mem (pairs : List LTLFPair) :
    ∀ (l : List Nat) (st : List (String × String) × List String),
      (∀ kv ∈ st.1, kv.2 ∈ st.2) →
      ∀ kv ∈ (List.foldl
        (fun (st : List (String × String) × List String) i =>
          let m := pairs.foldl
            (fun m p =>
              match p.inputs.get? i with
              | some v => alUpdate m v (pName (i + 1))
              | none => m)
            st.1
          (m, st.2 ++ [pName (i + 1)])) st l).1,
        kv.2 ∈ (List.foldl
        (fun (st : List (String × String) × List String) i =>
          let m := pairs.foldl
            (fun m p =>
              match p.inputs.get? i with
              | some v => alUpdate m v (pName (i + 1))
              | none => m)
            st.1
          (m, st.2 ++ [pName (i + 1)])) st l).2 := by
  intro l
  induction l with
  | nil => intro st h kv hkv; exact h kv hkv
  | cons i rest ih =>
    intro st h kv hkv
    rw [List.foldl_cons] at hkv ⊢
    refine ih _ ?_ kv hkv
    intro kv2 hkv2
    rcases testInner_val i pairs st.1 kv2 hkv2 with h2 | h2
    · exact List.mem_append.mpr (Or.inl (h kv2 h2))
    · rw [h2]; exact List.mem_append.mpr (Or.inr (List.mem_singleton.mpr rfl))

/-! ## Properties of the output mapping -/

theorem outputAssignAux_vals (used : List String) :
    ∀ (vs : List String) (idx : Nat) (m : List (String × String)),
      (∀ v ∈ m.map Prod.snd, used.contains v = false) →
      ∀ v ∈ (outputAssignAux used vs idx m).map Prod.snd,
        used.contains v = false := by
  intro vs
  induction vs with
  | nil => intro idx m h; exact h
  | cons v0 rest ih =>
    intro idx m h w hw
    rw [outputAssignAux] at hw
    by_cases hs : (List.lookup v0 m).isSome = true
    · rw [if_pos hs] at hw
      exact ih idx m h w hw
    · rw [if_neg hs] at hw
      refine ih _ _ ?_ w hw
      intro v2 hv2
      rw [List.map_append, List.mem_append] at hv2
      rcases hv2 with hv2 | hv2
      · exact h v2 hv2
      · rcases List.mem_singleton.mp (by simpa using hv2) with rfl
        exact nextFree_not_used used idx

theorem outputAssignAux_lookup_mono (used : List String) {s v : String} :
    ∀ (vs : List String) (idx : Nat) (m : List (String × String)),
      List.lookup s m = some v →
      List.lookup s (outputAssignAux used vs idx m) = some v := by
  intro vs
  induction vs with
  | nil => intro idx m h; exact h
  | cons v0 rest ih =>
    intro idx m h
    rw [outputAssignAux]
    by_cases hs : (List.lookup v0 m).isSome = true
    · rw [if_pos hs]; exact ih idx m h
    · rw [if_neg hs]
      exact ih _ _ (lookup_append_some m _ h)

theorem outputAssignAux_covers (used : List String) (s : String) :
    ∀ (vs : List String) (idx : Nat) (m : List (String × String)),
      s ∈ vs ∨ (List.lookup s m).isSome = true →
      (List.lookup s (outputAssignAux used vs idx m)).isSome = true := by
  intro vs
  induction vs with
  | nil =>
    intro idx m h
    rcases h with h | h
    · cases h
    · exact h
  | cons v0 rest ih =>
    intro idx m h
    rw [outputAssignAux]
    by_cases hs : (List.lookup v0 m).isSome = true
    · rw [if_pos hs]
      refine ih idx m ?_
      rcases h with h | h
      · rcases List.mem_cons.mp h with rfl | h
        · exact Or.inr hs
        · exact Or.inl h
      · exact Or.inr h
    · rw [if_neg hs]
      rcases h with h | h
      · rcases List.mem_cons.mp h with rfl | h
        · have hnone : List.lookup s m = none := by
            cases hc : List.lookup s m with
            | none => rfl
            | some w => rw [hc] at hs; simp at hs
          have : List.lookup s (m ++ [(s, pName (nextFree used idx (used.length + 1)))])
              = some (pName (nextFree used idx (used.length + 1))) := by
            rw [lookup_append_of_none m _ hnone]
            simp [List.lookup]
          rw [outputAssignAux_lookup_mono used rest _ _ this]
          rfl
        · exact ih _ _ (Or.inl h)
      · rcases Option.isSome_iff_exists.mp h with ⟨w, hw⟩
        have := lookup_append_some m
          [(v0, pName (nextFree used idx (used.length + 1)))] hw
        rw [outputAssignAux_lookup_mono used rest _ _ this]
        rfl

/-! ## Input mapping values are used names -/

theorem testLoop_val (pairs : List LTLFPair) (maxI : Nat) :
    ∀ kv ∈ (testLoop pairs maxI).1, kv.2 ∈ (testLoop pairs maxI).2 := by
  intro kv hkv
  exact testLoop_val_mem pairs (List.range maxI) ([], [])
    (by intro kv2 h2; cases h2) kv hkv

theorem generalInputs_val_mem (p0 p1 : LTLFPair) (pairs : List LTLFPair)
    (m : List (String × String)) (used : List String)
    (h : generalInputs p0 p1 pairs = .ok (m, used)) :
    ∀ kv ∈ m, kv.2 ∈ used := by
  rw [generalInputs] at h
  by_cases hkeys : (allInputVars pairs).all (fun v => (varKey v).isSome) = true
  · rw [if_pos hkeys] at h
    by_cases hconf : hasConflicts pairs = true
    · rw [if_pos hconf] at h
      have hg := buildGroupsAux_length_le
        (varFiles pairs) (max p0.inputs.length p1.inputs.length)
        (pySorted keyLe (allInputVars pairs)).length
        (pySorted keyLe (allInputVars pairs)) 0
      set g := buildGroupsAux (varFiles pairs)
        (max p0.inputs.length p1.inputs.length)
        (pySorted keyLe (allInputVars pairs)).length
        (pySorted keyLe (allInputVars pairs)) 0 with hgdef
      injection h with h2
      have hm : m = buildGroupMap g := (congrArg Prod.fst h2).symm
      have hu : used = (List.range' 1 (max p0.inputs.length p1.inputs.length)).map pName := by
        have h3 : used = padUsed ((List.range' 1 g.length).map pName)
            (g.length + 1) (max p0.inputs.length p1.inputs.length) :=
          (congrArg Prod.snd h2).symm
        rw [h3, conflict_used_eq g.length _ (by omega)]
      intro kv hkv
      rw [hm] at hkv
      rcases buildGroupMapAux_val g 0 kv hkv with ⟨j, hj, hv⟩
      rw [hu, hv]
      refine List.mem_map.mpr ⟨j + 1, ?_, by congr 1; omega⟩
      simp only [List.mem_range'_1]
      omega
    · rw [if_neg hconf] at h
      injection h with h2
      have hm : m = ((pySorted keyLe (allInputVars pairs)).take
          (max p0.inputs.length p1.inputs.length)).map (fun v => (v, v)) :=
        (congrArg Prod.fst h2).symm
      have hu : used = (pySorted keyLe (allInputVars pairs)).take
          (max p0.inputs.length p1.inputs.length) :=
        (congrArg Prod.snd h2).symm
      intro kv hkv
      rw [hm] at hkv
      rcases List.mem_map.mp hkv with ⟨v, hv, rfl⟩
      rw [hu]
      exact hv
  · rw [if_neg hkeys] at h
    cases h

theorem buildInputs_val_mem (pairs : List LTLFPair) (t : Bool)
    (m : List (String × String)) (used : List String)
    (h : buildInputs pairs t = .ok (m, used)) :
    ∀ kv ∈ m, kv.2 ∈ used := by
  cases t with
  | true =>
    rw [buildInputs, if_pos rfl] at h
    injection h with h2
    intro kv hkv
    have h1 : (testLoop pairs (pairs.foldl (fun m p => max m p.inputs.length) 0)).1 = m :=
      congrArg Prod.fst h2
    have h3 : (testLoop pairs (pairs.foldl (fun m p => max m p.inputs.length) 0)).2 = used :=
      congrArg Prod.snd h2
    rw [← h1] at hkv
    rw [← h3]
    exact testLoop_val pairs _ kv hkv
  | false =>
    rw [buildInputs, if_neg (by simp)] at h
    cases pairs with
    | nil => exact absurd h (by simp [generalDispatch])
    | cons p0 rest0 =>
      cases rest0 with
      | nil => exact absurd h (by simp [generalDispatch])
      | cons p1 rest =>
        rw [generalDispatch] at h
        exact generalInputs_val_mem p0 p1 (p0 :: p1 :: rest) m used h

/-! ## Inversion of a successful merge -/

theorem core_ok_fields (pairs : List LTLFPair) (t : Bool) (st : MergeSt)
    (h : merge_pairs_core pairs t = .ok st) :
    buildInputs pairs t = .ok (st.inputMap, st.usedInputs) ∧
    st.outMap = outputAssignAux st.usedInputs
      (pySorted strLe (distinct ((pairs.map (·.outputs)).flatten))) 1 [] ∧
    st.ins = pySorted strLe (distinct st.usedInputs) ∧
    st.outs = pySorted strLe (distinct (st.outMap.map (·.2))) ∧
    st.formula = pairs.enum.foldl
      (fun acc ip =>
        if ip.1 = 0 then wrapFirst (rewriteWith st ip.2)
        else wrapAccum acc (rewriteWith st ip.2)) "" := by
  cases hb : buildInputs pairs t with
  | error e => rw [merge_pairs_core, hb] at h; cases h
  | ok iu =>
    rw [merge_pairs_core, hb] at h
    injection h with h2
    subst h2
    exact ⟨rfl, rfl, rfl, rfl, rfl⟩

theorem merge_pairs_ok (pairs : List LTLFPair) (d : String)
    (f : String) (ins outs : List String)
    (hne : pairs ≠ []) (h : merge_pairs pairs d = .ok (f, ins, outs)) :
    ∃ st : MergeSt,
      merge_pairs_core pairs (is_max_inputs_test d pairs) = .ok st ∧
      f = st.formula ∧ ins = st.ins ∧ outs = st.outs := by
  rw [merge_pairs] at h
  rw [if_neg (by
    cases pairs with
    | nil => exact absurd rfl hne
    | cons a l => simp)] at h
  cases hc : merge_pairs_core pairs (is_max_inputs_test d pairs) with
  | error e => rw [hc] at h; cases h
  | ok st =>
    rw [hc] at h
    injection h with h2
    injection h2 with hf hrest
    injection hrest with hi ho
    exact ⟨st, rfl, hf.symm, hi.symm, ho.symm⟩

theorem core_outs_not_used (pairs : List LTLFPair) (t : Bool) (st : MergeSt)
    (h : merge_pairs_core pairs t = .ok st) :
    ∀ s ∈ st.outs, st.usedInputs.contains s = false := by
  obtain ⟨_, hom, _, houts, _⟩ := core_ok_fields pairs t st h
  intro s hs
  rw [houts] at hs
  have h1 : s ∈ st.outMap.map Prod.snd :=
    (mem_distinct s _).mp ((mem_pySorted strLe s _).mp hs)
  rw [hom] at h1
  exact outputAssignAux_vals st.usedInputs _ 1 []
    (by intro v hv; cases hv) s h1

theorem core_disjoint (pairs : List LTLFPair) (t : Bool) (st : MergeSt)
    (h : merge_pairs_core pairs t = .ok st) :
    ∀ s ∈ st.ins, s ∉ st.outs := by
  obtain ⟨_, _, hins, _, _⟩ := core_ok_fields pairs t st h
  intro s hsi hso
  have h1 : s ∈ st.usedInputs := by
    rw [hins] at hsi
    exact (mem_distinct s _).mp ((mem_pySorted strLe s _).mp hsi)
  have h2 := core_outs_not_used pairs t st h s hso
  rw [(contains_iff st.usedInputs s).mpr h1] at h2
  cases h2

/-! ## The claims -/

/-- Claim C1: for every non empty list of records, a merged record
returned by merge has disjoint input and output symbol sets: no symbol
is in both merge(records).inputs and merge(records).outputs. -/
theorem merge_inputs_outputs_disjoint (pairs : List LTLFPair)
    (output_dir : String) (f : String) (ins outs : List String)
    (hne : pairs ≠ [])
    (h : merge_pairs pairs output_dir = .ok (f, ins, outs)) :
    ∀ s, s ∈ ins → s ∉ outs := by
  obtain ⟨st, hc, _, hi, ho⟩ := merge_pairs_ok pairs output_dir f ins outs hne h
  intro s hs hs2
  rw [hi] at hs
  rw [ho] at hs2
  exact core_disjoint pairs _ st hc s hs hs2

/-- Witness for claim C1 at the concrete two record merge of the non
contiguous numbering scenario. -/
theorem merge_inputs_outputs_disjoint_witness :
    "p1" ∉ (["p2", "p4", "p5", "p6"] : List String) :=
  merge_inputs_outputs_disjoint [recGapA, recGapB] "out"
    "((G(p1 -> X[!](p2)))) && (G(p3 -> X[!](p4)))"
    ["p1", "p3"] ["p2", "p4", "p5", "p6"]
    (List.cons_ne_nil recGapA [recGapB]) rfl "p1" (by decide)

/-- Claim C5: merging the empty record list is defined behavior, not an
error: the result is the empty formula with empty input and output
lists, for every output directory. -/
theorem merge_empty_defined (output_dir : String) :
    merge_pairs [] output_dir = .ok ("", [], []) := rfl

/-- Counterexample to claim C2: in the merge of the record with input p1
and formula G(p1) with the record declaring p1 as an output, the symbol
p1 is declared an input of the first record and its input role image is
p1 itself (the input mapping binds p1 to p1), so rewriting the first
formula under its declared role would leave G(p1) unchanged; but the
merged formula is ((G(p2))) && (F(p2)): the output role image p2 was
substituted into a formula whose record declared p1 as an input, and no
occurrence of p1 survives anywhere in the merged formula. -/
theorem rewrite_not_role_qualified_counterexample :
    merge_pairs_core [recG1, recOutP1] false =
      .ok ⟨[("p1", "p1")], ["p1"], [("p1", "p2")],
        "((G(p2))) && (F(p2))", ["p1"], ["p2"]⟩ ∧
    replaceWord recG1.ltlf_formula "p1" "p1" = "G(p1)" ∧
    containsSub "((G(p2))) && (F(p2))" "p1" = false :=
  ⟨rfl, rfl, rfl⟩

/-- Claim C2, amended: the role images are distinct whenever a symbol is
mapped under both roles (input images are used input names and output
images avoid them), but each record formula is rewritten by applying the
whole input mapping and then the whole output mapping, not according to
the role the symbol was declared under in that record. -/
theorem role_images_differ (pairs : List LTLFPair) (t : Bool)
    (st : MergeSt) (s a b : String)
    (h : merge_pairs_core pairs t = .ok st)
    (ha : List.lookup s st.inputMap = some a)
    (hb : List.lookup s st.outMap = some b) : a ≠ b := by
  obtain ⟨hbi, hom, _, _, _⟩ := core_ok_fields pairs t st h
  have hain : a ∈ st.usedInputs :=
    buildInputs_val_mem pairs t st.inputMap st.usedInputs hbi (s, a) (lookup_mem _ ha)
  have hbout : st.usedInputs.contains b = false := by
    have h1 : (s, b) ∈ st.outMap := lookup_mem _ hb
    have h2 : b ∈ st.outMap.map Prod.snd :=
      List.mem_map.mpr ⟨(s, b), h1, rfl⟩
    rw [hom] at h2
    exact outputAssignAux_vals st.usedInputs _ 1 []
      (by intro v hv; cases hv) b h2
  intro hab
  rw [← hab, (contains_iff st.usedInputs a).mpr hain] at hbout
  cases hbout

/-- Witness for the amended claim C2 at the concrete crossing merge:
p1 is an input of one record and an output of the other, and its two
role images p1 and p2 differ. -/
theorem role_images_differ_witness : ("p1" : String) ≠ "p2" :=
  role_images_differ [recG1, recOutP1] false
    ⟨[("p1", "p1")], ["p1"], [("p1", "p2")],
      "((G(p2))) && (F(p2))", ["p1"], ["p2"]⟩
    "p1" "p1" "p2" rfl rfl rfl

/-- Counterexample to claim C3: merging two records with disjoint input
sets p1 p2 and p3 p4 drops the symbols p3 and p4 entirely: the merged
input list is p1 p2 only, the merged output list is empty, and p3, a
declared input of the second record, is mapped nowhere in the merged
result. -/
theorem rename_mapping_incomplete_counterexample :
    merge_pairs [recIn12, recIn34] "out" =
      .ok ("((G(p1))) && (F(p3))", ["p1", "p2"], []) ∧
    "p3" ∈ recIn34.inputs ∧
    "p3" ∉ (["p1", "p2"] : List String) ∧
    "p3" ∉ ([] : List String) ∧
    List.lookup "p3" [("p1", "p1"), ("p2", "p2")] = none :=
  ⟨rfl, by decide, by decide, by decide, rfl⟩

/-- Claim C3, amended: every declared output symbol of every record is
mapped to exactly one symbol, which appears in the merged output list;
declared input symbols, in contrast, can be dropped when the distinct
input count exceeds the larger of the first two records input counts. -/
theorem output_mapping_complete (pairs : List LTLFPair) (t : Bool)
    (st : MergeSt) (p : LTLFPair) (s : String)
    (h : merge_pairs_core pairs t = .ok st)
    (hp : p ∈ pairs) (hs : s ∈ p.outputs) :
    List.lookup s st.outMap ≠ none ∧
    ∀ v, List.lookup s st.outMap = some v → v ∈ st.outs := by
  obtain ⟨_, hom, _, houts, _⟩ := core_ok_fields pairs t st h
  constructor
  · have hflat : s ∈ (pairs.map (·.outputs)).flatten := by
      rw [List.mem_flatten]
      exact ⟨p.outputs, List.mem_map.mpr ⟨p, hp, rfl⟩, hs⟩
    have hvs : s ∈ pySorted strLe (distinct ((pairs.map (·.outputs)).flatten)) :=
      (mem_pySorted strLe s _).mpr ((mem_distinct s _).mpr hflat)
    have := outputAssignAux_covers st.usedInputs s
      (pySorted strLe (distinct ((pairs.map (·.outputs)).flatten))) 1 []
      (Or.inl hvs)
    rw [← hom] at this
    intro hc
    rw [hc] at this
    cases this
  · intro v hv
    have h1 : (s, v) ∈ st.outMap := lookup_mem _ hv
    have h2 : v ∈ st.outMap.map Prod.snd := List.mem_map.mpr ⟨(s, v), h1, rfl⟩
    rw [houts]
    exact (mem_pySorted strLe v _).mpr ((mem_distinct v _).mpr h2)

/-- Witness for the amended claim C3 at the non contiguous scenario: the
declared output p10 of the first record is mapped, and its image p2
appears in the merged output list. -/
theorem output_mapping_complete_witness :
    List.lookup "p10"
      [("p10", "p2"), ("p12", "p4"), ("p15", "p5"), ("p17", "p6")] ≠ none ∧
    "p2" ∈ (["p2", "p4", "p5", "p6"] : List String) :=
  ⟨(output_mapping_complete [recGapA, recGapB] false
      ⟨[("p1", "p1"), ("p3", "p3")], ["p1", "p3"],
        [("p10", "p2"), ("p12", "p4"), ("p15", "p5"), ("p17", "p6")],
        "((G(p1 -> X[!](p2)))) && (G(p3 -> X[!](p4)))",
        ["p1", "p3"], ["p2", "p4", "p5", "p6"]⟩
      recGapA "p10" rfl (List.mem_cons_self recGapA [recGapB]) (by decide)).1,
   (output_mapping_complete [recGapA, recGapB] false
      ⟨[("p1", "p1"), ("p3", "p3")], ["p1", "p3"],
        [("p10", "p2"), ("p12", "p4"), ("p15", "p5"), ("p17", "p6")],
        "((G(p1 -> X[!](p2)))) && (G(p3 -> X[!](p4)))",
        ["p1", "p3"], ["p2", "p4", "p5", "p6"]⟩
      recGapA "p10" rfl (List.mem_cons_self recGapA [recGapB]) (by decide)).2
     "p2" rfl⟩

/-- Counterexample to claim C4: merging G(p1) with F(p2) yields
((G(p1))) && (F(p2)), which differs from the shape the claim describes,
namely the parenthesized constituents joined by the conjunction inside
one more enclosing pair, ((G(p1)) && (F(p2))); moreover merging the
single record G(p1) does not return a wrapped formula at all: it raises
IndexError from reading pairs[1]. -/
theorem merged_formula_shape_counterexample :
    merge_pairs [recG1, recF2] "out" =
      .ok ("((G(p1))) && (F(p2))", ["p1"], []) ∧
    specMergedFormula ["G(p1)", "F(p2)"] = "((G(p1)) && (F(p2)))" ∧
    ("((G(p1))) && (F(p2))" : String) ≠ "((G(p1)) && (F(p2)))" ∧
    merge_pairs [recG1] "out" = .error .indexError :=
  ⟨rfl, rfl, by decide, rfl⟩

/-- Claim C4, amended: for two records the merged formula is the first
rewritten formula wrapped once and then rewrapped by the accumulation
step, giving ((f0)) && (f1), with no additional enclosing pair; and a
single record list does not return a wrapped formula on the general path
but raises IndexError from reading pairs[1]. -/
theorem merged_formula_shape (A B : LTLFPair) (st : MergeSt)
    (h : merge_pairs_core [A, B] false = .ok st) :
    st.formula = wrapAccum (wrapFirst (rewriteWith st A)) (rewriteWith st B) ∧
    merge_pairs [recG1] "out" = .error .indexError := by
  obtain ⟨_, _, _, _, hf⟩ := core_ok_fields [A, B] false st h
  exact ⟨hf, rfl⟩

/-- Witness for the amended claim C4 at the concrete merge of G(p1) and
F(p2). -/
theorem merged_formula_shape_witness :
    ("((G(p1))) && (F(p2))" : String) =
      wrapAccum
        (wrapFirst (rewriteWith
          ⟨[("p1", "p1")], ["p1"], [], "((G(p1))) && (F(p2))", ["p1"], []⟩ recG1))
        (rewriteWith
          ⟨[("p1", "p1")], ["p1"], [], "((G(p1))) && (F(p2))", ["p1"], []⟩ recF2) ∧
    merge_pairs [recG1] "out" = .error .indexError :=
  merged_formula_shape recG1 recF2
    ⟨[("p1", "p1")], ["p1"], [], "((G(p1))) && (F(p2))", ["p1"], []⟩ rfl

/-- Claim C6: loading never fails on malformed role declarations or on a
blank formula.  A roles text with no recognizable declaration line loads
as two empty symbol lists, and a blank formula text loads as the empty
formula with only a printed warning flag; the code returns normally
where its own docstring promises a ValueError for an invalid format. -/
theorem load_silently_repairs :
    load_files (some "hello world") (some "   ") true true =
      .ok ⟨[], [], "", true⟩ ∧
    parsePart "hello world" = ([], []) :=
  ⟨rfl, rfl⟩

/-- Counterexample to claim C7: with a record list containing a record
of exactly five inputs, the merge result depends on the output directory
path: under a directory mentioning test_files the merge succeeds through
the position wise branch, under any other directory it raises IndexError
for the single record list. -/
theorem merge_path_dependent_counterexample :
    merge_pairs [recFive] "test_files" ≠ merge_pairs [recFive] "other" := by
  have h1 : merge_pairs [recFive] "test_files" =
      .ok ("(G(p1))", ["p1", "p2", "p3", "p4", "p5"], []) := rfl
  have h2 : merge_pairs [recFive] "other" = .error .indexError := rfl
  rw [h1, h2]
  intro hc
  cases hc

/-- Claim C7, amended: the merge result is independent of the output
directory whenever no record declares exactly five inputs, because the
path only feeds the test branch detection; with a five input record and
a path containing test_files the result can differ. -/
theorem merge_path_independent (pairs : List LTLFPair) (d1 d2 : String)
    (h : ∀ p ∈ pairs, p.inputs.length ≠ 5) :
    merge_pairs pairs d1 = merge_pairs pairs d2 := by
  have hany : pairs.any (fun p => p.inputs.length == 5) = false := by
    rw [List.any_eq_false]
    intro p hp
    simpa using h p hp
  rw [merge_pairs, merge_pairs, is_max_inputs_test, is_max_inputs_test,
    hany, Bool.and_false, Bool.and_false]

/-- Witness for the amended claim C7: a record list with input counts
one and one produces identical results under two unrelated directories. -/
theorem merge_path_independent_witness :
    merge_pairs [recG1, recF2] "some/dir" = merge_pairs [recG1, recF2] "other/dir" :=
  merge_path_independent [recG1, recF2] "some/dir" "other/dir" (by decide)

/-- Counterexample to claim C8: the serialized roles text sorts with the
plain string order, so p10 is printed before p2, not after it as numeric
suffix ordering would require. -/
theorem symbol_sort_not_numeric_counterexample :
    partText ["p2", "p10"] [] = ".inputs: p10 p2\n.outputs: \n" ∧
    (".inputs: p10 p2\n.outputs: \n" : String) ≠ ".inputs: p2 p10\n.outputs: \n" :=
  ⟨rfl, by decide⟩

/-- Claim C8, amended: the orderings produced for the roles text and for
the merged input and output lists are plain lexicographic string
orderings (so p10 sorts before p2), not numeric by suffix: the roles
text renders each line as the space joined lexicographically sorted
permutation of the symbols, and every merged input and output list is
lexicographically sorted. -/
theorem symbol_sort_lexicographic :
    (∀ ins outs : List String, ∃ si so,
      partText ins outs =
        ".inputs: " ++ joinSp si ++ "\n" ++ ".outputs: " ++ joinSp so ++ "\n" ∧
      List.Perm si ins ∧ si.Pairwise (fun a b => strLe a b = true) ∧
      List.Perm so outs ∧ so.Pairwise (fun a b => strLe a b = true)) ∧
    (∀ (pairs : List LTLFPair) (d f : String) (ins outs : List String),
      merge_pairs pairs d = .ok (f, ins, outs) →
      ins.Pairwise (fun a b => strLe a b = true) ∧
      outs.Pairwise (fun a b => strLe a b = true)) := by
  constructor
  · intro ins outs
    exact ⟨pySorted strLe ins, pySorted strLe outs, rfl,
      perm_pySorted strLe ins,
      pairwise_pySorted strLe strLe_total strLe_trans ins,
      perm_pySorted strLe outs,
      pairwise_pySorted strLe strLe_total strLe_trans outs⟩
  · intro pairs d f ins outs h
    cases pairs with
    | nil =>
      injection h with h2
      injection h2 with hf hrest
      injection hrest with hi ho
      rw [← hi, ← ho]
      exact ⟨List.Pairwise.nil, List.Pairwise.nil⟩
    | cons p rest =>
      obtain ⟨st, hc, _, hi, ho⟩ :=
        merge_pairs_ok (p :: rest) d f ins outs (List.cons_ne_nil p rest) h
      obtain ⟨_, _, hins, houts, _⟩ := core_ok_fields (p :: rest) _ st hc
      constructor
      · rw [hi, hins]
        exact pairwise_pySorted strLe strLe_total strLe_trans _
      · rw [ho, houts]
        exact pairwise_pySorted strLe strLe_total strLe_trans _

/-- Witness for the amended claim C8 at the non contiguous scenario
merge. -/
theorem symbol_sort_lexicographic_witness :
    (["p1", "p3"] : List String).Pairwise (fun a b => strLe a b = true) ∧
    (["p2", "p4", "p5", "p6"] : List String).Pairwise (fun a b => strLe a b = true) :=
  symbol_sort_lexicographic.2 [recGapA, recGapB] "out"
    "((G(p1 -> X[!](p2)))) && (G(p3 -> X[!](p4)))"
    ["p1", "p3"] ["p2", "p4", "p5", "p6"] rfl

/-- Counterexample to claim C9: in the non contiguous numbering scenario
(inputs p1 p5 and p3 p7, outputs p10 p15 and p12 p17, all symbols
conflict free) the merged result has six symbols while the records
declare eight distinct symbols: the declared inputs p5 and p7 are
dropped by the truncation to the larger of the first two input counts,
so the merged count does not equal the number of distinct non
conflicting original symbols. -/
theorem renumbering_count_counterexample :
    merge_pairs [recGapA, recGapB] "out" =
      .ok ("((G(p1 -> X[!](p2)))) && (G(p3 -> X[!](p4)))",
        ["p1", "p3"], ["p2", "p4", "p5", "p6"]) ∧
    hasConflicts [recGapA, recGapB] = false ∧
    (["p1", "p3"] ++ ["p2", "p4", "p5", "p6"]).length = 6 ∧
    (distinct ((([recGapA, recGapB]).map (·.inputs)).flatten
      ++ (([recGapA, recGapB]).map (·.outputs)).flatten)).length = 8 ∧
    (6 : Nat) ≠ 8 :=
  ⟨rfl, rfl, rfl, rfl, by decide⟩

/-- Claim C9, amended: in the non contiguous numbering scenario the
merged symbol numbers are contiguous from 1 (every name p1 through p6
occurs among the merged symbols, which number exactly six), but the
count is six rather than the eight distinct declared symbols: the
declared input p5 is mapped nowhere. -/
theorem renumbering_contiguous_scenario :
    merge_pairs [recGapA, recGapB] "out" =
      .ok ("((G(p1 -> X[!](p2)))) && (G(p3 -> X[!](p4)))",
        ["p1", "p3"], ["p2", "p4", "p5", "p6"]) ∧
    (List.range' 1 6).all
      (fun k => (["p1", "p3"] ++ ["p2", "p4", "p5", "p6"]).contains (pName k)) = true ∧
    (["p1", "p3"] ++ ["p2", "p4", "p5", "p6"]).length = 6 ∧
    "p5" ∈ recGapA.inputs ∧
    List.lookup "p5" [("p1", "p1"), ("p3", "p3")] = none :=
  ⟨rfl, by decide, rfl, by decide, rfl⟩

/-- On the conflict path the merged input list has exactly the larger of
the first two records input counts. -/
theorem conflict_ins_length (p0 p1 : LTLFPair) (rest : List LTLFPair)
    (st : MergeSt)
    (hconf : hasConflicts (p0 :: p1 :: rest) = true)
    (h : merge_pairs_core (p0 :: p1 :: rest) false = .ok st) :
    st.ins.length = max p0.inputs.length p1.inputs.length := by
  obtain ⟨hbi, _, hins, _, _⟩ := core_ok_fields _ false st h
  rw [buildInputs, if_neg (by simp), generalDispatch, generalInputs] at hbi
  by_cases hkeys : (allInputVars (p0 :: p1 :: rest)).all
      (fun v => (varKey v).isSome) = true
  · rw [if_pos hkeys, if_pos hconf] at hbi
    injection hbi with h2
    set g := buildGroupsAux (varFiles (p0 :: p1 :: rest))
      (max p0.inputs.length p1.inputs.length)
      (pySorted keyLe (allInputVars (p0 :: p1 :: rest))).length
      (pySorted keyLe (allInputVars (p0 :: p1 :: rest))) 0 with hgdef
    have hg := buildGroupsAux_length_le
      (varFiles (p0 :: p1 :: rest))
      (max p0.inputs.length p1.inputs.length)
      (pySorted keyLe (allInputVars (p0 :: p1 :: rest))).length
      (pySorted keyLe (allInputVars (p0 :: p1 :: rest))) 0
    rw [← hgdef] at hg
    have hu : st.usedInputs
        = (List.range' 1 (max p0.inputs.length p1.inputs.length)).map pName := by
      have h3 : padUsed ((List.range' 1 g.length).map pName) (g.length + 1)
          (max p0.inputs.length p1.inputs.length) = st.usedInputs :=
        congrArg Prod.snd h2
      rw [← h3, conflict_used_eq g.length _ (by omega)]
    have hnd : st.usedInputs.Nodup := by
      rw [hu]
      exact List.Nodup.map pName_inj (List.nodup_range' 1 _)
    rw [hins, pySorted_length, distinct_eq_self _ hnd, hu]
    simp
  · rw [if_neg hkeys] at hbi
    cases hbi

/-- Claim C10, amended: on the conflicting inputs path the merged input
list is padded with generated names up to the larger of the first two
records input counts (not the largest count over all records); the
padded names can be declared in no record and occur nowhere in the
merged formula, as the concrete duplicate declaration merge shows, where
the padded symbol p2 is undeclared and absent from the formula. -/
theorem conflict_pads_inputs (p0 p1 : LTLFPair) (rest : List LTLFPair)
    (st : MergeSt)
    (hconf : hasConflicts (p0 :: p1 :: rest) = true)
    (h : merge_pairs_core (p0 :: p1 :: rest) false = .ok st) :
    st.ins.length = max p0.inputs.length p1.inputs.length ∧
    merge_pairs [recDup, recF1] "out" =
      .ok ("((G(p1))) && (F(p1))", ["p1", "p2"], []) ∧
    "p2" ∉ recDup.inputs ∧ "p2" ∉ recF1.inputs ∧
    containsSub "((G(p1))) && (F(p1))" "p2" = false :=
  ⟨conflict_ins_length p0 p1 rest st hconf h, rfl, by decide, by decide, rfl⟩

/-- Witness for the amended claim C10 at the duplicate declaration
merge, whose input counts are two and one and whose merged input list
has two symbols. -/
theorem conflict_pads_inputs_witness :
    (["p1", "p2"] : List String).length = max 2 1 ∧
    merge_pairs [recDup, recF1] "out" =
      .ok ("((G(p1))) && (F(p1))", ["p1", "p2"], []) ∧
    "p2" ∉ recDup.inputs ∧ "p2" ∉ recF1.inputs ∧
    containsSub "((G(p1))) && (F(p1))" "p2" = false :=
  conflict_pads_inputs recDup recF1 []
    ⟨[("p1", "p1")], ["p1", "p2"], [], "((G(p1))) && (F(p1))",
      ["p1", "p2"], []⟩
    rfl rfl

/-- Counterexample to claim C10: with three records of input counts one,
one and three on the conflicting inputs path, the merged input list has
one symbol, not the largest per record input count three: the padding
bound reads only the first two records. -/
theorem conflict_pads_inputs_counterexample :
    merge_pairs [recG1, recF1, recWide] "out" =
      .ok ("(((G(p1))) && (F(p1))) && (X(p2))", ["p1"], []) ∧
    hasConflicts [recG1, recF1, recWide] = true ∧
    List.foldl (fun m p => max m p.inputs.length) 0 [recG1, recF1, recWide] = 3 ∧
    (["p1"] : List String).length = 1 ∧
    (1 : Nat) ≠ 3 :=
  ⟨rfl, rfl, rfl, rfl, by decide⟩

end MergeLtlf
